import Mathlib

/-!
Verification of the Response Shaping Pipeline of the Nyxie chatbot.

Two components are embedded from the Python source:
* the Segmenter `split_long_message` (main.py), which partitions a long
  reply string into transport-safe chunks, and
* the Length-Class Selector `DynamicResponseManager.get_response_type`
  (dynamic_response.py), which picks one of five verbosity classes.

Strings are embedded as `List Char`; Python float arithmetic is modelled
exactly over `ℚ`; the shared pseudorandom source is an explicit stream
`Nat → ℚ` of uniform draws together with a cursor index; Python runtime
errors (KeyError, ValueError, IndexError, ZeroDivisionError) are modelled
with `Except`.
-/

abbrev Str := List Char

/-- Python `str.split(sep)` for a single-character separator `sep`:
always returns at least one (possibly empty) field. -/
def splitChar (sep : Char) : Str → List Str
  | [] => [[]]
  | c :: rest =>
    if c = sep then [] :: splitChar sep rest
    else
      match splitChar sep rest with
      | [] => [[c]]
      | g :: gs => (c :: g) :: gs

/-- Python `text.split("\n\n")`: split on the two-character paragraph
separator, scanning left to right, non-overlapping. -/
def splitPara : Str → List Str
  | [] => [[]]
  | [c] => [[c]]
  | c1 :: c2 :: rest =>
    if c1 = '\n' ∧ c2 = '\n' then [] :: splitPara rest
    else
      match splitPara (c2 :: rest) with
      | [] => [[c1]]
      | g :: gs => (c1 :: g) :: gs

/-- Python `paragraph.replace(". ", ".\n")`: left-to-right non-overlapping
replacement of a period-space by a period-newline. -/
def replaceDotSpace : Str → Str
  | [] => []
  | [c] => [c]
  | c1 :: c2 :: rest =>
    if c1 = '.' ∧ c2 = ' ' then '.' :: '\n' :: replaceDotSpace rest
    else c1 :: replaceDotSpace (c2 :: rest)

/-- One iteration of the word-level loop of `split_long_message`.
State is `(chunks, current_chunk)`.  Note that the overflow branch appends
`current_chunk` to `chunks` without the emptiness guard that the
paragraph- and sentence-level loops have. -/
def procWord (maxLen : Nat) (st : List Str × Str) (w : Str) : List Str × Str :=
  if st.2.length + w.length + 1 > maxLen then
    (st.1 ++ [st.2], w)
  else
    if st.2 ≠ [] then (st.1, st.2 ++ ' ' :: w) else (st.1, w)

/-- `if current_chunk: chunks.append(current_chunk); current_chunk = ""`. -/
def flushChunk (st : List Str × Str) : List Str × Str :=
  if st.2 ≠ [] then (st.1 ++ [st.2], []) else st

/-- One iteration of the sentence-level loop of `split_long_message`. -/
def procSentence (maxLen : Nat) (st : List Str × Str) (s : Str) : List Str × Str :=
  if st.2.length + s.length + 1 > maxLen then
    let st1 := flushChunk st
    if s.length > maxLen then
      (splitChar ' ' s).foldl (procWord maxLen) st1
    else (st1.1, s)
  else
    if st.2 ≠ [] then (st.1, st.2 ++ ' ' :: s) else (st.1, s)

/-- One iteration of the paragraph-level loop of `split_long_message`. -/
def procParagraph (maxLen : Nat) (st : List Str × Str) (p : Str) : List Str × Str :=
  if st.2.length + p.length + 2 > maxLen then
    let st1 := flushChunk st
    if p.length > maxLen then
      (splitChar '\n' (replaceDotSpace p)).foldl (procSentence maxLen) st1
    else (st1.1, p)
  else
    if st.2 ≠ [] then (st.1, st.2 ++ '\n' :: '\n' :: p) else (st.1, p)

/-- `split_long_message(text, max_length)` from main.py: partition a long
message into chunks, splitting preferentially at paragraph, then sentence,
then word boundaries. -/
def split_long_message (text : Str) (maxLen : Nat) : List Str :=
  if text.length ≤ maxLen then [text]
  else
    let st := (splitPara text).foldl (procParagraph maxLen) ([], [])
    if st.2 ≠ [] then st.1 ++ [st.2] else st.1

example : splitChar ' ' "a bc".data = ["a".data, "bc".data] := by decide
example : splitChar ' ' " ".data = [[], []] := by decide
example : splitPara "a\n\nb\nc".data = ["a".data, "b\nc".data] := by decide
example : splitPara "a\n\n\nb".data = ["a".data, "\nb".data] := by decide
example : replaceDotSpace "a. b. ".data = "a.\nb.\n".data := by decide
example : split_long_message "hello".data 10 = ["hello".data] := by decide
example : split_long_message "AAAAAA".data 5 = [[], "AAAAAA".data] := by decide
example : split_long_message "ab cd ef".data 5 = ["ab cd".data, "ef".data] := by decide
example : split_long_message "ab\n\ncd".data 3 = ["ab".data, "cd".data] := by decide

/-! ## Length-Class Selector (dynamic_response.py) -/

/-- The five verbosity-class key strings, in the fixed enum order of the
probability dictionary literal in `get_response_type`. -/
def str_extremely_short : Str := "extremely_short".data

def str_slightly_short : Str := "slightly_short".data

def str_medium : Str := "medium".data

def str_slightly_long : Str := "slightly_long".data

def str_long : Str := "long".data

def allTypeStrings : List Str :=
  [str_extremely_short, str_slightly_short, str_medium, str_slightly_long, str_long]

/-- Python runtime errors the selector can raise. -/
inductive PyError where
  | keyError
  | valueError
  | indexError
  | zeroDivisionError
deriving DecidableEq

/-- The probability dictionary: association list from class-name string to
weight, in insertion order. -/
abbrev Dict := List (Str × ℚ)

/-- `d[k] *= c` for a key known to be present: multiply the value at `k`. -/
def dmul (k : Str) (c : ℚ) (d : Dict) : Dict :=
  d.map fun kv => if kv.1 = k then (kv.1, kv.2 * c) else kv

/-- Dictionary lookup (`d[k]`), `none` when the key is absent (KeyError). -/
def dlookup (k : Str) : Dict → Option ℚ
  | [] => none
  | kv :: rest => if kv.1 = k then some kv.2 else dlookup k rest

/-- Python `list.remove(x)`: drop the first occurrence of `x`. -/
def pyRemove (x : Str) : List Str → List Str
  | [] => []
  | y :: rest => if y = x then rest else y :: pyRemove x rest

/-- Python `random.choice(l)` driven by one uniform draw `v ∈ [0,1)`:
pick the element at index `⌊v·|l|⌋`. -/
def pyChoice (v : ℚ) (l : List Str) : Str :=
  l.getD (Int.toNat ⌊v * (l.length : ℚ)⌋ % l.length) []

/-- Python `s.startswith(p)` on char lists. -/
def listStartsWith : Str → Str → Bool
  | [], _ => true
  | _ :: _, [] => false
  | p :: ps, c :: cs => p = c && listStartsWith ps cs

/-- Python `pat in s` substring containment. -/
def containsSub (pat : Str) : Str → Bool
  | [] => pat.isEmpty
  | c :: rest => listStartsWith pat (c :: rest) || containsSub pat rest

/-- Selector configuration (config.py values read by dynamic_response.py). -/
structure Config where
  enabled : Bool
  extremely_short_probability : ℚ
  slightly_short_probability : ℚ
  medium_probability : ℚ
  slightly_long_probability : ℚ
  long_probability : ℚ
  randomness : ℚ

/-- The base probability dictionary built at the top of `get_response_type`,
in the literal's insertion order. -/
def mkProbs (cfg : Config) : Dict :=
  [(str_extremely_short, cfg.extremely_short_probability),
   (str_slightly_short, cfg.slightly_short_probability),
   (str_medium, cfg.medium_probability),
   (str_slightly_long, cfg.slightly_long_probability),
   (str_long, cfg.long_probability)]

/-- Mutable selector state (`DynamicResponseManager.__init__`). -/
structure DRState where
  last_response_type : Option Str
  consecutive_same_type_count : Nat
deriving DecidableEq

def initialState : DRState := ⟨none, 0⟩

/-- Python truthiness of `self.last_response_type` (None and "" are falsy). -/
def truthy : Option Str → Bool
  | none => false
  | some s => decide (s ≠ [])

/-- The fixed request-phrasing cues of `_adjust_probabilities_for_content`. -/
def commandIndicators : List Str :=
  ["please".data, "can you".data, "could you".data, "would you".data,
   "tell me".data, "show me".data, "help me".data]

/-- `_adjust_probabilities_for_content`. -/
def adjustForContent (d : Dict) (msg : Str) : Dict :=
  let d1 :=
    if msg.length < 50 then
      dmul str_long (7/10) (dmul str_slightly_short (13/10) (dmul str_extremely_short (3/2) d))
    else if msg.length > 200 then
      dmul str_extremely_short (7/10) (dmul str_long (3/2) (dmul str_slightly_long (13/10) d))
    else d
  let d2 :=
    if containsSub ['?'] msg then
      dmul str_slightly_long (6/5) (dmul str_medium (13/10) d1)
    else d1
  if commandIndicators.any (fun ind => containsSub ind (msg.map Char.toLower)) then
    dmul str_slightly_short (11/10) (dmul str_extremely_short (6/5) d2)
  else d2

/-- The context dictionary fields read by `_adjust_probabilities_for_context`. -/
structure Ctx where
  is_first_message : Bool
  message_count : Nat

/-- `_adjust_probabilities_for_context`. -/
def adjustForContext (d : Dict) (c : Ctx) : Dict :=
  let d1 :=
    if c.is_first_message then
      dmul str_extremely_short (1/2) (dmul str_slightly_long (13/10) (dmul str_medium (3/2) d))
    else d
  if c.message_count > 5 then
    dmul str_long (6/5) (dmul str_extremely_short (6/5) d1)
  else d1

/-- `reduction_factor = min(0.3, 0.8 ** self.consecutive_same_type_count)`
in `_adjust_probabilities_for_variety`. -/
def reduction_factor (n : Nat) : ℚ := min (3/10) ((4/5) ^ n)

/-- The push-away boosts of `_adjust_probabilities_for_variety`, keyed on
the previous class. -/
def pushAway (last : Str) (d : Dict) : Dict :=
  if last = str_extremely_short ∨ last = str_slightly_short then
    dmul str_medium 2 (dmul str_long 3 (dmul str_slightly_long 3 d))
  else if last = str_medium then
    dmul str_long (5/2) (dmul str_extremely_short (5/2) d)
  else if last = str_slightly_long ∨ last = str_long then
    dmul str_slightly_short 3 (dmul str_extremely_short 3 d)
  else d

/-- Body of `_adjust_probabilities_for_variety` once the guard has passed:
`last` is the previous class string, `n` the consecutive count, `u` the
draw stream, `i` the cursor.  `probabilities[last] *= reduction_factor`
raises KeyError when `last` is not a key; `response_types.remove(last)`
raises ValueError when absent; `random.choice` on an empty list raises
IndexError; `probabilities[random_type] *= 4.0` raises KeyError. -/
def varietyDamped (last : Str) (n : Nat) (u : Nat → ℚ) (i : Nat) (d : Dict) : Dict :=
  if 1 ≤ n ∧ u i < 4/5 then pushAway last (dmul last (reduction_factor n) d)
  else dmul last (reduction_factor n) d

/-- The draw for the push-away rule is consumed whenever `n ≥ 1` (inside the
guard this always holds); `and` short-circuits otherwise. -/
def varietyCursor (n i : Nat) : Nat := if 1 ≤ n then i + 1 else i

/-- The `random.random() < 0.2` random-boost step: build the key list,
remove the previous class (ValueError when absent), choose one of the
remaining keys (IndexError when empty) and quadruple its weight. -/
def varietyRandomBoost (last : Str) (u : Nat → ℚ) (i2 : Nat) (d2 : Dict) :
    Except PyError (Dict × Nat) :=
  if u i2 < 1/5 then
    if last ∈ d2.map Prod.fst then
      if (pyRemove last (d2.map Prod.fst)).isEmpty then .error .indexError
      else
        match dlookup (pyChoice (u (i2 + 1)) (pyRemove last (d2.map Prod.fst))) d2 with
        | none => .error .keyError
        | some _ =>
          .ok (dmul (pyChoice (u (i2 + 1)) (pyRemove last (d2.map Prod.fst))) 4 d2, i2 + 2)
    else .error .valueError
  else .ok (d2, i2 + 1)

def varietyCore (last : Str) (n : Nat) (u : Nat → ℚ) (i : Nat) (d : Dict) :
    Except PyError (Dict × Nat) :=
  match dlookup last d with
  | none => .error .keyError
  | some _ => varietyRandomBoost last u (varietyCursor n i) (varietyDamped last n u i d)

/-- `_adjust_probabilities_for_variety`: runs only when the consecutive
count is positive and the previous class string is truthy. -/
def adjustForVariety (st : DRState) (u : Nat → ℚ) (i : Nat) (d : Dict) :
    Except PyError (Dict × Nat) :=
  if 0 < st.consecutive_same_type_count ∧ truthy st.last_response_type then
    match st.last_response_type with
    | some last => varietyCore last st.consecutive_same_type_count u i d
    | none => .ok (d, i)
  else .ok (d, i)

/-- `_apply_randomness`: every value is multiplied by
`1 + randomness * (2·u − 1)` with a fresh draw per key, in key order. -/
def applyRandomness (r : ℚ) (u : Nat → ℚ) : Dict → Nat → Dict × Nat
  | [], i => ([], i)
  | kv :: rest, i =>
    let adj := 1 + r * (2 * u i - 1)
    let s := applyRandomness r u rest (i + 1)
    ((kv.1, kv.2 * adj) :: s.1, s.2)

def sumValues (d : Dict) : ℚ := (d.map Prod.snd).sum

/-- The normalization step of `get_response_type`: divide every weight by
the total; Python float division raises ZeroDivisionError on a zero total.
(Named `normalizeProbs` because `normalize` already exists in Mathlib.) -/
def normalizeProbs (d : Dict) : Except PyError Dict :=
  if sumValues d = 0 then .error .zeroDivisionError
  else .ok (d.map fun kv => (kv.1, kv.2 / sumValues d))

/-- The running cumulative distribution built by `_select_response_type`. -/
def cumulativeList (acc : ℚ) : Dict → Dict
  | [] => []
  | kv :: rest => (kv.1, acc + kv.2) :: cumulativeList (acc + kv.2) rest

/-- The selection loop: return the first key whose cumulative probability
is ≥ the drawn value. -/
def firstAtMost (rv : ℚ) : Dict → Option Str
  | [] => none
  | kv :: rest => if rv ≤ kv.2 then some kv.1 else firstAtMost rv rest

/-- `_select_response_type`: sample by cumulative distribution, falling
back to `"medium"` when no bucket is reached. -/
def selectResponseType (d : Dict) (rv : ℚ) : Str :=
  match firstAtMost rv (cumulativeList 0 d) with
  | some k => k
  | none => str_medium

/-- `if context: self._adjust_probabilities_for_context(...)`: the context
adjustment runs only when a context dictionary was supplied (an absent or
empty dictionary is falsy). -/
def contextStage (d : Dict) : Option Ctx → Dict
  | none => d
  | some c => adjustForContext d c

/-- The tracking-variable update at the end of `get_response_type`. -/
def updateState (st : DRState) (rt : Str) : DRState :=
  if st.last_response_type = some rt then
    { st with consecutive_same_type_count := st.consecutive_same_type_count + 1 }
  else
    { last_response_type := some rt, consecutive_same_type_count := 0 }

/-- `DynamicResponseManager.get_response_type`: returns the selected class
string, the updated state, and the new draw cursor. -/
def get_response_type (cfg : Config) (st : DRState) (msg : Str) (ctx : Option Ctx)
    (u : Nat → ℚ) (i : Nat) : Except PyError (Str × DRState × Nat) :=
  if cfg.enabled = false then .ok (str_medium, st, i)
  else
    let d0 := mkProbs cfg
    let d1 := adjustForContent d0 msg
    let d2 := contextStage d1 ctx
    match adjustForVariety st u i d2 with
    | .error e => .error e
    | .ok s3 =>
      let s4 := applyRandomness cfg.randomness u s3.1 s3.2
      match normalizeProbs s4.1 with
      | .error e => .error e
      | .ok d5 =>
        let rt := selectResponseType d5 (u s4.2)
        .ok (rt, updateState st rt, s4.2 + 1)

/-! ## Segmenter lemmas -/

/-- Characters that survive separator normalization: everything except the
space and newline characters the Segmenter splits on and reinserts. -/
def keepChar (c : Char) : Bool := !(c == ' ' || c == '\n')

/-- The non-whitespace content of a string, in order. -/
def content (s : Str) : Str := s.filter keepChar

lemma content_append (a b : Str) : content (a ++ b) = content a ++ content b :=
  List.filter_append a b

lemma content_space_cons (s : Str) : content (' ' :: s) = content s := by
  simp [content, List.filter_cons, keepChar]

lemma content_nl_cons (s : Str) : content ('\n' :: s) = content s := by
  simp [content, List.filter_cons, keepChar]

lemma content_flatten (L : List Str) : content L.flatten = (L.map content).flatten := by
  induction L with
  | nil => rfl
  | cons a L ih => simp only [List.flatten_cons, List.map_cons, content_append, ih]

lemma splitChar_ne_nil (sep : Char) (s : Str) : splitChar sep s ≠ [] := by
  cases s with
  | nil => simp [splitChar]
  | cons c rest =>
    simp only [splitChar]
    split
    · simp
    · split <;> simp

lemma splitChar_sep_not_mem (sep : Char) (s : Str) :
    ∀ w ∈ splitChar sep s, sep ∉ w := by
  induction s with
  | nil => simp [splitChar]
  | cons c rest ih =>
    simp only [splitChar]
    by_cases h : c = sep
    · rw [if_pos h]
      intro w hw
      rcases List.mem_cons.mp hw with rfl | hw
      · simp
      · exact ih w hw
    · rw [if_neg h]
      cases hsp : splitChar sep rest with
      | nil => exact absurd hsp (splitChar_ne_nil sep rest)
      | cons g gs =>
        intro w hw
        rcases List.mem_cons.mp hw with rfl | hw
        · intro hmem
          rcases List.mem_cons.mp hmem with rfl | hmem
          · exact h rfl
          · exact ih g (hsp ▸ List.mem_cons_self g gs) hmem
        · exact ih w (hsp ▸ List.mem_cons_of_mem g hw)

lemma content_flatten_splitChar (sep : Char) (hsep : keepChar sep = false) (s : Str) :
    content (splitChar sep s).flatten = content s := by
  induction s with
  | nil => simp [splitChar, content]
  | cons c rest ih =>
    simp only [splitChar]
    by_cases h : c = sep
    · subst h
      rw [if_pos rfl]
      simpa [content, List.filter_cons, hsep] using ih
    · rw [if_neg h]
      cases hsp : splitChar sep rest with
      | nil => exact absurd hsp (splitChar_ne_nil sep rest)
      | cons g gs =>
        rw [hsp] at ih
        simp only [List.flatten_cons] at ih ⊢
        simp only [List.cons_append, content, List.filter_cons] at ih ⊢
        rw [ih]

lemma splitChar_of_not_mem {sep : Char} {s : Str} (h : sep ∉ s) :
    splitChar sep s = [s] := by
  induction s with
  | nil => rfl
  | cons c rest ih =>
    have hc : ¬c = sep := fun hc => h (hc ▸ List.mem_cons_self c rest)
    have hrest : sep ∉ rest := fun hm => h (List.mem_cons_of_mem c hm)
    simp [splitChar, hc, ih hrest]

lemma splitPara_ne_nil (s : Str) : splitPara s ≠ [] := by
  induction s using splitPara.induct with
  | case1 => simp [splitPara]
  | case2 c => simp [splitPara]
  | case3 c1 c2 rest h ih => simp [splitPara, if_pos h]
  | case4 c1 c2 rest h heq ih => simp [splitPara, if_neg h, heq]
  | case5 c1 c2 rest h g gs heq ih => simp [splitPara, if_neg h, heq]

lemma content_flatten_splitPara (s : Str) : content (splitPara s).flatten = content s := by
  induction s using splitPara.induct with
  | case1 => rfl
  | case2 c => simp [splitPara]
  | case3 c1 c2 rest h ih =>
    obtain ⟨rfl, rfl⟩ := h
    have hstep : splitPara ('\n' :: '\n' :: rest) = [] :: splitPara rest := by
      simp [splitPara]
    rw [hstep]
    simp only [List.flatten_cons, List.nil_append]
    rw [ih, content_nl_cons, content_nl_cons]
  | case4 c1 c2 rest h heq ih => exact absurd heq (splitPara_ne_nil _)
  | case5 c1 c2 rest h g gs heq ih =>
    rw [heq] at ih
    simp only [splitPara, if_neg h, heq, List.flatten_cons] at ih ⊢
    simp only [List.cons_append, content, List.filter_cons] at ih ⊢
    rw [ih]

lemma splitPara_of_not_mem {s : Str} (h : '\n' ∉ s) : splitPara s = [s] := by
  induction s using splitPara.induct with
  | case1 => rfl
  | case2 c => rfl
  | case3 c1 c2 rest hc ih =>
    exact absurd (hc.1 ▸ List.mem_cons_self c1 (c2 :: rest)) h
  | case4 c1 c2 rest hc heq ih => exact absurd heq (splitPara_ne_nil _)
  | case5 c1 c2 rest hc g gs heq ih =>
    have h2 : '\n' ∉ c2 :: rest := fun hm => h (List.mem_cons_of_mem c1 hm)
    simp [splitPara, if_neg hc, ih h2]

lemma content_replaceDotSpace (s : Str) : content (replaceDotSpace s) = content s := by
  induction s using replaceDotSpace.induct with
  | case1 => rfl
  | case2 c => rfl
  | case3 c1 c2 rest h ih =>
    obtain ⟨rfl, rfl⟩ := h
    have hstep : replaceDotSpace ('.' :: ' ' :: rest) = '.' :: '\n' :: replaceDotSpace rest := by
      simp [replaceDotSpace]
    rw [hstep]
    simp only [content, List.filter_cons] at ih ⊢
    simp only [show keepChar '.' = true from by decide,
               show keepChar '\n' = false from by decide,
               show keepChar ' ' = false from by decide,
               if_true, if_false, Bool.false_eq_true, ih]
  | case4 c1 c2 rest h ih =>
    simp only [replaceDotSpace, if_neg h]
    simp only [content, List.filter_cons] at ih ⊢
    rw [ih]

lemma replaceDotSpace_of_not_mem {s : Str} (h : ' ' ∉ s) : replaceDotSpace s = s := by
  induction s using replaceDotSpace.induct with
  | case1 => rfl
  | case2 c => rfl
  | case3 c1 c2 rest hc ih =>
    exact absurd (hc.2 ▸ List.mem_cons_of_mem c1 (List.mem_cons_self c2 rest)) h
  | case4 c1 c2 rest hc ih =>
    have h2 : ' ' ∉ c2 :: rest := fun hm => h (List.mem_cons_of_mem c1 hm)
    simp [replaceDotSpace, if_neg hc, ih h2]

lemma foldl_hold {σ α : Type} (f : σ → α → σ) (P : σ → Prop) (Q : α → Prop) :
    ∀ (l : List α) (s : σ), (∀ a ∈ l, Q a) → (∀ t a, P t → Q a → P (f t a)) →
      P s → P (l.foldl f s) := by
  intro l
  induction l with
  | nil => intro s _ _ hs; exact hs
  | cons a l ih =>
    intro s hq hf hs
    exact ih (f s a) (fun b hb => hq b (List.mem_cons_of_mem a hb))
      hf (hf s a hs (hq a (List.mem_cons_self a l)))

lemma foldl_content {σ : Type} (f : σ → Str → σ) (g : σ → Str) :
    ∀ (l : List Str) (s : σ), (∀ t a, a ∈ l → g (f t a) = g t ++ content a) →
      g (l.foldl f s) = g s ++ content l.flatten := by
  intro l
  induction l with
  | nil => intro s _; simp [content]
  | cons a l ih =>
    intro s hf
    rw [List.foldl_cons,
        ih (f s a) (fun t b hb => hf t b (List.mem_cons_of_mem a hb)),
        hf s a (List.mem_cons_self a l), List.flatten_cons, content_append,
        List.append_assoc]

/-- The chunk invariant of the Segmenter: within the limit, or a space-free
atomic word. -/
def chunkOK (maxLen : Nat) (ch : Str) : Prop := ch.length ≤ maxLen ∨ ' ' ∉ ch

/-- Invariant carried through the accumulation loops. -/
def segInv (maxLen : Nat) (st : List Str × Str) : Prop :=
  (∀ ch ∈ st.1, chunkOK maxLen ch) ∧ chunkOK maxLen st.2

lemma chunkOK_nil (maxLen : Nat) : chunkOK maxLen [] := Or.inl (Nat.zero_le _)

lemma segInv_push {maxLen : Nat} {st : List Str × Str} (h : segInv maxLen st) :
    ∀ ch ∈ st.1 ++ [st.2], chunkOK maxLen ch := by
  intro ch hch
  rcases List.mem_append.mp hch with hch | hch
  · exact h.1 ch hch
  · rw [List.mem_singleton.mp hch]; exact h.2

lemma flushChunk_segInv {maxLen : Nat} {st : List Str × Str} (h : segInv maxLen st) :
    segInv maxLen (flushChunk st) := by
  unfold flushChunk
  split
  · exact ⟨segInv_push h, chunkOK_nil maxLen⟩
  · exact h

lemma flushChunk_snd (st : List Str × Str) : (flushChunk st).2 = [] := by
  unfold flushChunk
  split
  · rfl
  · simp_all

lemma procWord_segInv {maxLen : Nat} {st : List Str × Str} {w : Str}
    (h : segInv maxLen st) (hw : ' ' ∉ w) : segInv maxLen (procWord maxLen st w) := by
  unfold procWord
  split
  · exact ⟨segInv_push h, Or.inr hw⟩
  · split
    · refine ⟨h.1, Or.inl ?_⟩
      simp only [List.length_append, List.length_cons]
      omega
    · exact ⟨h.1, Or.inr hw⟩

lemma procSentence_segInv {maxLen : Nat} {st : List Str × Str} {s : Str}
    (h : segInv maxLen st) : segInv maxLen (procSentence maxLen st s) := by
  unfold procSentence
  split
  · split
    · exact foldl_hold (procWord maxLen) (segInv maxLen) (fun w => ' ' ∉ w) _ _
        (splitChar_sep_not_mem ' ' s) (fun t a ht ha => procWord_segInv ht ha)
        (flushChunk_segInv h)
    · refine ⟨(flushChunk_segInv h).1, Or.inl ?_⟩
      show s.length ≤ maxLen
      omega
  · split
    · refine ⟨h.1, Or.inl ?_⟩
      simp only [List.length_append, List.length_cons]
      omega
    · refine ⟨h.1, Or.inl ?_⟩
      show s.length ≤ maxLen
      omega

lemma procParagraph_segInv {maxLen : Nat} {st : List Str × Str} {p : Str}
    (h : segInv maxLen st) : segInv maxLen (procParagraph maxLen st p) := by
  unfold procParagraph
  split
  · split
    · exact foldl_hold (procSentence maxLen) (segInv maxLen) (fun _ => True) _ _
        (fun _ _ => trivial) (fun t a ht _ => procSentence_segInv ht)
        (flushChunk_segInv h)
    · refine ⟨(flushChunk_segInv h).1, Or.inl ?_⟩
      show p.length ≤ maxLen
      omega
  · split
    · refine ⟨h.1, Or.inl ?_⟩
      simp only [List.length_append, List.length_cons]
      omega
    · refine ⟨h.1, Or.inl ?_⟩
      show p.length ≤ maxLen
      omega

/-- The accumulated non-whitespace content of the loop state. -/
def segContent (st : List Str × Str) : Str := content st.1.flatten ++ content st.2

lemma segContent_push (st : List Str × Str) :
    content (st.1 ++ [st.2]).flatten = segContent st := by
  simp [segContent, List.flatten_append, content_append]

lemma flushChunk_segContent (st : List Str × Str) :
    segContent (flushChunk st) = segContent st := by
  unfold flushChunk
  split
  · simp [segContent, List.flatten_append, content_append, content]
  · rfl

lemma procWord_segContent (maxLen : Nat) (st : List Str × Str) (w : Str) :
    segContent (procWord maxLen st w) = segContent st ++ content w := by
  unfold procWord
  split
  · simp [segContent, List.flatten_append, content_append, List.append_assoc, content]
  · split
    · simp [segContent, content_append, content_space_cons, List.append_assoc]
    · simp_all [segContent, content]

lemma procSentence_segContent (maxLen : Nat) (st : List Str × Str) (s : Str) :
    segContent (procSentence maxLen st s) = segContent st ++ content s := by
  unfold procSentence
  split
  · split
    · rw [foldl_content (procWord maxLen) segContent _ _
          (fun t a _ => procWord_segContent maxLen t a),
          flushChunk_segContent, content_flatten_splitChar ' ' (by decide) s]
    · have h2 := flushChunk_snd st
      calc segContent ((flushChunk st).1, s)
          = content (flushChunk st).1.flatten ++ content s := rfl
        _ = content (flushChunk st).1.flatten ++ content (flushChunk st).2 ++ content s := by
              rw [h2]; simp [content]
        _ = segContent st ++ content s := by rw [← segContent, flushChunk_segContent]
  · split
    · simp [segContent, content_append, content_space_cons, List.append_assoc]
    · simp_all [segContent, content]

lemma procParagraph_segContent (maxLen : Nat) (st : List Str × Str) (p : Str) :
    segContent (procParagraph maxLen st p) = segContent st ++ content p := by
  unfold procParagraph
  split
  · split
    · rw [foldl_content (procSentence maxLen) segContent _ _
          (fun t a _ => procSentence_segContent maxLen t a),
          flushChunk_segContent, content_flatten_splitChar '\n' (by decide),
          content_replaceDotSpace]
    · have h2 := flushChunk_snd st
      calc segContent ((flushChunk st).1, p)
          = content (flushChunk st).1.flatten ++ content p := rfl
        _ = content (flushChunk st).1.flatten ++ content (flushChunk st).2 ++ content p := by
              rw [h2]; simp [content]
        _ = segContent st ++ content p := by rw [← segContent, flushChunk_segContent]
  · split
    · simp [segContent, content_append, content_nl_cons, List.append_assoc]
    · simp_all [segContent, content]

lemma split_long_message_of_long {text : Str} {maxLen : Nat}
    (h : ¬text.length ≤ maxLen) :
    split_long_message text maxLen =
      if ((splitPara text).foldl (procParagraph maxLen) ([], [])).2 ≠ [] then
        ((splitPara text).foldl (procParagraph maxLen) ([], [])).1 ++
          [((splitPara text).foldl (procParagraph maxLen) ([], [])).2]
      else ((splitPara text).foldl (procParagraph maxLen) ([], [])).1 := by
  unfold split_long_message
  rw [if_neg h]

lemma split_long_message_chunkOK (text : Str) (maxLen : Nat) :
    ∀ ch ∈ split_long_message text maxLen, chunkOK maxLen ch := by
  by_cases h : text.length ≤ maxLen
  · unfold split_long_message
    rw [if_pos h]
    intro ch hch
    rw [List.mem_singleton.mp hch]
    exact Or.inl (by omega)
  · rw [split_long_message_of_long h]
    have hinv : segInv maxLen ((splitPara text).foldl (procParagraph maxLen) ([], [])) :=
      foldl_hold (procParagraph maxLen) (segInv maxLen) (fun _ => True) _ _
        (fun _ _ => trivial) (fun t a ht _ => procParagraph_segInv ht)
        ⟨by simp, chunkOK_nil maxLen⟩
    split
    · exact segInv_push hinv
    · exact hinv.1

lemma split_long_message_content (text : Str) (maxLen : Nat) :
    content (split_long_message text maxLen).flatten = content text := by
  by_cases h : text.length ≤ maxLen
  · unfold split_long_message
    rw [if_pos h]
    simp [content]
  · rw [split_long_message_of_long h]
    have hfold : segContent ((splitPara text).foldl (procParagraph maxLen) ([], [])) =
        content text := by
      rw [foldl_content (procParagraph maxLen) segContent _ _
            (fun t a _ => procParagraph_segContent maxLen t a),
          content_flatten_splitPara]
      simp [segContent, content]
    split
    · rw [segContent_push, hfold]
    · rename_i hne
      rw [not_not] at hne
      rw [← hfold]
      simp [segContent, hne, content]

lemma split_single_word {w : Str} {maxLen : Nat} (hnl : '\n' ∉ w) (hsp : ' ' ∉ w)
    (hlen : maxLen < w.length) : split_long_message w maxLen = [[], w] := by
  have hwne : w ≠ [] := by
    intro h
    rw [h] at hlen
    simp at hlen
  have hword : procWord maxLen ([], []) w = ([[]], w) := by
    unfold procWord
    rw [if_pos (by simpa using by omega)]
    rfl
  have hsent : procSentence maxLen ([], []) w = ([[]], w) := by
    unfold procSentence
    rw [if_pos (by simpa using by omega)]
    have : flushChunk ([], []) = (([], []) : List Str × Str) := rfl
    rw [this, if_pos (by omega), splitChar_of_not_mem hsp]
    simpa using hword
  have hpara : procParagraph maxLen ([], []) w = ([[]], w) := by
    unfold procParagraph
    rw [if_pos (by simpa using by omega)]
    have : flushChunk ([], []) = (([], []) : List Str × Str) := rfl
    rw [this, if_pos (by omega), replaceDotSpace_of_not_mem hsp,
        splitChar_of_not_mem hnl]
    simpa using hsent
  rw [split_long_message_of_long (by omega), splitPara_of_not_mem hnl]
  simp only [List.foldl_cons, List.foldl_nil, hpara]
  rw [if_pos (by simpa using hwne)]
  rfl

/-! ## Selector lemmas -/

/-- The state invariant maintained by the selector: the remembered class is
absent or one of the five dictionary key strings (and the consecutive count
is a natural number, hence always ≥ 0). -/
def validState (st : DRState) : Prop :=
  st.last_response_type = none ∨
    ∃ t ∈ allTypeStrings, st.last_response_type = some t

def keysOf (d : Dict) : List Str := d.map Prod.fst

/-- All weights non-negative. -/
def nonnegDict (d : Dict) : Prop := ∀ kv ∈ d, 0 ≤ kv.2

/-- Some weight strictly positive. -/
def hasPosDict (d : Dict) : Prop := ∃ kv ∈ d, 0 < kv.2

lemma dmul_keys (k : Str) (c : ℚ) (d : Dict) : keysOf (dmul k c d) = keysOf d := by
  unfold keysOf dmul
  rw [List.map_map]
  apply List.map_congr_left
  intro kv _
  by_cases h : kv.1 = k <;> simp [h]

lemma dmul_nonneg {k : Str} {c : ℚ} {d : Dict} (hc : 0 ≤ c) (hd : nonnegDict d) :
    nonnegDict (dmul k c d) := by
  intro kv hkv
  obtain ⟨kv0, hkv0, rfl⟩ := List.mem_map.mp hkv
  by_cases h : kv0.1 = k <;> simp [h]
  · exact mul_nonneg (hd kv0 hkv0) hc
  · exact hd kv0 hkv0

lemma dmul_hasPos {k : Str} {c : ℚ} {d : Dict} (hc : 0 < c) (hd : hasPosDict d) :
    hasPosDict (dmul k c d) := by
  obtain ⟨kv, hkv, hpos⟩ := hd
  refine ⟨if kv.1 = k then (kv.1, kv.2 * c) else kv, List.mem_map.mpr ⟨kv, hkv, rfl⟩, ?_⟩
  by_cases h : kv.1 = k <;> simp [h]
  · exact mul_pos hpos hc
  · exact hpos

lemma mkProbs_keys (cfg : Config) : keysOf (mkProbs cfg) = allTypeStrings := rfl

lemma adjustForContent_keys (d : Dict) (msg : Str) :
    keysOf (adjustForContent d msg) = keysOf d := by
  simp only [adjustForContent]
  split_ifs <;> simp [dmul_keys]

lemma adjustForContent_nonneg {d : Dict} (msg : Str) (hd : nonnegDict d) :
    nonnegDict (adjustForContent d msg) := by
  simp only [adjustForContent]
  split_ifs <;>
    repeat' first
      | exact hd
      | apply dmul_nonneg (by norm_num)

lemma adjustForContent_hasPos {d : Dict} (msg : Str) (hd : hasPosDict d) :
    hasPosDict (adjustForContent d msg) := by
  simp only [adjustForContent]
  split_ifs <;>
    repeat' first
      | exact hd
      | apply dmul_hasPos (by norm_num)

lemma adjustForContext_keys (d : Dict) (c : Ctx) :
    keysOf (adjustForContext d c) = keysOf d := by
  simp only [adjustForContext]
  split_ifs <;> simp [dmul_keys]

lemma adjustForContext_nonneg {d : Dict} (c : Ctx) (hd : nonnegDict d) :
    nonnegDict (adjustForContext d c) := by
  simp only [adjustForContext]
  split_ifs <;>
    repeat' first
      | exact hd
      | apply dmul_nonneg (by norm_num)

lemma adjustForContext_hasPos {d : Dict} (c : Ctx) (hd : hasPosDict d) :
    hasPosDict (adjustForContext d c) := by
  simp only [adjustForContext]
  split_ifs <;>
    repeat' first
      | exact hd
      | apply dmul_hasPos (by norm_num)

lemma pushAway_keys (last : Str) (d : Dict) : keysOf (pushAway last d) = keysOf d := by
  simp only [pushAway]
  split_ifs <;> simp [dmul_keys]

lemma pushAway_nonneg {d : Dict} (last : Str) (hd : nonnegDict d) :
    nonnegDict (pushAway last d) := by
  simp only [pushAway]
  split_ifs <;>
    repeat' first
      | exact hd
      | apply dmul_nonneg (by norm_num)

lemma pushAway_hasPos {d : Dict} (last : Str) (hd : hasPosDict d) :
    hasPosDict (pushAway last d) := by
  simp only [pushAway]
  split_ifs <;>
    repeat' first
      | exact hd
      | apply dmul_hasPos (by norm_num)

lemma reduction_factor_pos (n : Nat) : 0 < reduction_factor n :=
  lt_min (by norm_num) (pow_pos (by norm_num) n)

lemma randomness_adj_nonneg {r v : ℚ} (hr0 : 0 ≤ r) (hr1 : r ≤ 1)
    (hv0 : 0 ≤ v) : 0 ≤ 1 + r * (2 * v - 1) := by
  nlinarith

lemma randomness_adj_pos {r v : ℚ} (hr0 : 0 ≤ r) (hr1 : r < 1)
    (hv0 : 0 ≤ v) : 0 < 1 + r * (2 * v - 1) := by
  nlinarith

lemma applyRandomness_keys (r : ℚ) (u : Nat → ℚ) (d : Dict) (i : Nat) :
    keysOf (applyRandomness r u d i).1 = keysOf d := by
  induction d generalizing i with
  | nil => rfl
  | cons kv rest ih => simp [applyRandomness, keysOf] at ih ⊢; exact ih _

lemma applyRandomness_nonneg {r : ℚ} {u : Nat → ℚ} {d : Dict} (i : Nat)
    (hr0 : 0 ≤ r) (hr1 : r ≤ 1) (hu : ∀ n, 0 ≤ u n)
    (hd : nonnegDict d) : nonnegDict (applyRandomness r u d i).1 := by
  induction d generalizing i with
  | nil => intro kv hkv; simp [applyRandomness] at hkv
  | cons kv rest ih =>
    intro kv2 hkv2
    simp only [applyRandomness, List.mem_cons] at hkv2
    rcases hkv2 with rfl | hkv2
    · exact mul_nonneg (hd kv (List.mem_cons_self kv rest))
        (randomness_adj_nonneg hr0 hr1 (hu i))
    · exact ih (i + 1) (fun kv3 hkv3 => hd kv3 (List.mem_cons_of_mem kv hkv3)) kv2 hkv2

lemma applyRandomness_hasPos {r : ℚ} {u : Nat → ℚ} {d : Dict} (i : Nat)
    (hr0 : 0 ≤ r) (hr1 : r < 1) (hu : ∀ n, 0 ≤ u n)
    (hd : hasPosDict d) : hasPosDict (applyRandomness r u d i).1 := by
  induction d generalizing i with
  | nil => obtain ⟨kv, hkv, _⟩ := hd; simp at hkv
  | cons kv rest ih =>
    obtain ⟨kv2, hkv2, hpos⟩ := hd
    rcases List.mem_cons.mp hkv2 with rfl | hkv2
    · exact ⟨(kv2.1, kv2.2 * (1 + r * (2 * u i - 1))),
        List.mem_cons_self _ _,
        mul_pos hpos (randomness_adj_pos hr0 hr1 (hu i))⟩
    · obtain ⟨kv3, hkv3, hpos3⟩ := ih (i + 1) ⟨kv2, hkv2, hpos⟩
      exact ⟨kv3, List.mem_cons_of_mem _ hkv3, hpos3⟩

lemma sumValues_pos {d : Dict} (hn : nonnegDict d) (hp : hasPosDict d) :
    0 < sumValues d := by
  induction d with
  | nil => obtain ⟨kv, hkv, _⟩ := hp; simp at hkv
  | cons kv rest ih =>
    have hrest : ∀ kv2 ∈ rest, 0 ≤ kv2.2 :=
      fun kv2 h => hn kv2 (List.mem_cons_of_mem kv h)
    have hrest_sum : 0 ≤ sumValues rest := by
      unfold sumValues
      apply List.sum_nonneg
      intro x hx
      obtain ⟨kv2, hkv2, rfl⟩ := List.mem_map.mp hx
      exact hrest kv2 hkv2
    obtain ⟨kv2, hkv2, hpos⟩ := hp
    rcases List.mem_cons.mp hkv2 with rfl | hkv2
    · have : sumValues (kv2 :: rest) = kv2.2 + sumValues rest := by
        simp [sumValues]
      rw [this]
      positivity
    · have hhead : 0 ≤ kv.2 := hn kv (List.mem_cons_self kv rest)
      have : sumValues (kv :: rest) = kv.2 + sumValues rest := by
        simp [sumValues]
      rw [this]
      have := ih hrest ⟨kv2, hkv2, hpos⟩
      positivity

lemma dlookup_of_mem_keys {k : Str} {d : Dict} (h : k ∈ keysOf d) :
    ∃ v, dlookup k d = some v := by
  induction d with
  | nil => simp [keysOf] at h
  | cons kv rest ih =>
    by_cases hk : kv.1 = k
    · exact ⟨kv.2, by simp [dlookup, hk]⟩
    · have : k ∈ keysOf rest := by
        simp only [keysOf, List.map_cons, List.mem_cons] at h
        rcases h with h | h
        · exact absurd h.symm hk
        · exact h
      obtain ⟨v, hv⟩ := ih this
      exact ⟨v, by simp [dlookup, hk, hv]⟩

lemma pyRemove_subset {x y : Str} {l : List Str} (h : x ∈ pyRemove y l) : x ∈ l := by
  induction l with
  | nil => simp [pyRemove] at h
  | cons z rest ih =>
    simp only [pyRemove] at h
    split at h
    · exact List.mem_cons_of_mem z h
    · rcases List.mem_cons.mp h with rfl | h
      · exact List.mem_cons_self x rest
      · exact List.mem_cons_of_mem z (ih h)

lemma pyChoice_mem {l : List Str} (h : l ≠ []) (v : ℚ) : pyChoice v l ∈ l := by
  unfold pyChoice
  have hlen : 0 < l.length := List.length_pos.mpr h
  have hlt : Int.toNat ⌊v * (l.length : ℚ)⌋ % l.length < l.length :=
    Nat.mod_lt _ hlen
  rw [List.getD_eq_getElem l [] hlt]
  exact List.getElem_mem hlt

lemma pyRemove_all_ne_nil {last : Str} (h : last ∈ allTypeStrings) :
    pyRemove last allTypeStrings ≠ [] := by
  fin_cases h <;> decide

lemma cumulativeList_keys (acc : ℚ) (d : Dict) :
    keysOf (cumulativeList acc d) = keysOf d := by
  induction d generalizing acc with
  | nil => rfl
  | cons kv rest ih => simp [cumulativeList, keysOf] at ih ⊢; exact ih _

lemma firstAtMost_mem_keys {rv : ℚ} {l : Dict} {k : Str}
    (h : firstAtMost rv l = some k) : k ∈ keysOf l := by
  induction l with
  | nil => simp [firstAtMost] at h
  | cons kv rest ih =>
    simp only [firstAtMost] at h
    split at h
    · simp only [Option.some.injEq] at h
      simp [keysOf, h]
    · simp only [keysOf, List.map_cons, List.mem_cons]
      exact Or.inr (ih h)

lemma selectResponseType_mem {d : Dict} (hkeys : keysOf d = allTypeStrings) (rv : ℚ) :
    selectResponseType d rv ∈ allTypeStrings := by
  unfold selectResponseType
  cases h : firstAtMost rv (cumulativeList 0 d) with
  | none => simp [allTypeStrings]
  | some k =>
    have := firstAtMost_mem_keys h
    rw [cumulativeList_keys, hkeys] at this
    simpa using this

lemma varietyDamped_keys (last : Str) (n : Nat) (u : Nat → ℚ) (i : Nat) (d : Dict) :
    keysOf (varietyDamped last n u i d) = keysOf d := by
  unfold varietyDamped
  split_ifs <;> simp [pushAway_keys, dmul_keys]

lemma varietyDamped_nonneg {d : Dict} (last : Str) (n : Nat) (u : Nat → ℚ) (i : Nat)
    (hd : nonnegDict d) : nonnegDict (varietyDamped last n u i d) := by
  unfold varietyDamped
  split_ifs
  · exact pushAway_nonneg last
      (dmul_nonneg (le_of_lt (reduction_factor_pos n)) hd)
  · exact dmul_nonneg (le_of_lt (reduction_factor_pos n)) hd

lemma varietyDamped_hasPos {d : Dict} (last : Str) (n : Nat) (u : Nat → ℚ) (i : Nat)
    (hd : hasPosDict d) : hasPosDict (varietyDamped last n u i d) := by
  unfold varietyDamped
  split_ifs
  · exact pushAway_hasPos last (dmul_hasPos (reduction_factor_pos n) hd)
  · exact dmul_hasPos (reduction_factor_pos n) hd

lemma varietyRandomBoost_ok {last : Str} {d2 : Dict} (u : Nat → ℚ) (i2 : Nat)
    (hkeys : keysOf d2 = allTypeStrings) (hlast : last ∈ allTypeStrings) :
    ∃ d' i', varietyRandomBoost last u i2 d2 = .ok (d', i') ∧
      keysOf d' = allTypeStrings ∧
      (nonnegDict d2 → nonnegDict d') ∧
      (hasPosDict d2 → hasPosDict d') := by
  unfold varietyRandomBoost
  by_cases hc : u i2 < 1/5
  · rw [if_pos hc]
    have hmem : last ∈ d2.map Prod.fst := by
      rw [show d2.map Prod.fst = keysOf d2 from rfl, hkeys]
      exact hlast
    rw [if_pos hmem]
    have hne : pyRemove last (d2.map Prod.fst) ≠ [] := by
      rw [show d2.map Prod.fst = keysOf d2 from rfl, hkeys]
      exact pyRemove_all_ne_nil hlast
    rw [if_neg (by simpa [List.isEmpty_iff] using hne)]
    have hcm : pyChoice (u (i2 + 1)) (pyRemove last (d2.map Prod.fst)) ∈ keysOf d2 :=
      pyRemove_subset (pyChoice_mem hne (u (i2 + 1)))
    obtain ⟨v, hv⟩ := dlookup_of_mem_keys hcm
    rw [hv]
    refine ⟨_, i2 + 2, rfl, ?_, ?_, ?_⟩
    · rw [dmul_keys, hkeys]
    · exact fun hn => dmul_nonneg (by norm_num) hn
    · exact fun hp => dmul_hasPos (by norm_num) hp
  · rw [if_neg hc]
    exact ⟨d2, i2 + 1, rfl, hkeys, fun hn => hn, fun hp => hp⟩

lemma varietyCore_ok {last : Str} {d : Dict} (n : Nat) (u : Nat → ℚ) (i : Nat)
    (hkeys : keysOf d = allTypeStrings) (hlast : last ∈ allTypeStrings) :
    ∃ d' i', varietyCore last n u i d = .ok (d', i') ∧
      keysOf d' = allTypeStrings ∧
      (nonnegDict d → nonnegDict d') ∧
      (nonnegDict d → hasPosDict d → hasPosDict d') := by
  obtain ⟨v, hv⟩ := dlookup_of_mem_keys (show last ∈ keysOf d from hkeys ▸ hlast)
  unfold varietyCore
  rw [hv]
  have hkd : keysOf (varietyDamped last n u i d) = allTypeStrings := by
    rw [varietyDamped_keys, hkeys]
  obtain ⟨d', i', heq, hk', hn', hp'⟩ :=
    varietyRandomBoost_ok u (varietyCursor n i) hkd hlast
  exact ⟨d', i', heq, hk',
    fun hn => hn' (varietyDamped_nonneg last n u i hn),
    fun hn hp => hp' (varietyDamped_hasPos last n u i hp)⟩

lemma adjustForVariety_ok {st : DRState} {d : Dict} (u : Nat → ℚ) (i : Nat)
    (hst : validState st) (hkeys : keysOf d = allTypeStrings) :
    ∃ d' i', adjustForVariety st u i d = .ok (d', i') ∧
      keysOf d' = allTypeStrings ∧
      (nonnegDict d → nonnegDict d') ∧
      (nonnegDict d → hasPosDict d → hasPosDict d') := by
  unfold adjustForVariety
  by_cases hg : 0 < st.consecutive_same_type_count ∧ truthy st.last_response_type
  · rw [if_pos hg]
    rcases hst with hnone | ⟨t, ht, hsome⟩
    · rw [hnone] at hg
      simp [truthy] at hg
    · rw [hsome]
      exact varietyCore_ok st.consecutive_same_type_count u i hkeys ht
  · rw [if_neg hg]
    exact ⟨d, i, rfl, hkeys, fun hn => hn, fun _ hp => hp⟩

lemma contextStage_keys (d : Dict) (ctx : Option Ctx) :
    keysOf (contextStage d ctx) = keysOf d := by
  cases ctx with
  | none => rfl
  | some c => exact adjustForContext_keys d c

lemma contextStage_nonneg {d : Dict} (ctx : Option Ctx) (hd : nonnegDict d) :
    nonnegDict (contextStage d ctx) := by
  cases ctx with
  | none => exact hd
  | some c => exact adjustForContext_nonneg c hd

lemma contextStage_hasPos {d : Dict} (ctx : Option Ctx) (hd : hasPosDict d) :
    hasPosDict (contextStage d ctx) := by
  cases ctx with
  | none => exact hd
  | some c => exact adjustForContext_hasPos c hd

lemma normalizeProbs_ok {d : Dict} (hz : sumValues d ≠ 0) :
    ∃ d', normalizeProbs d = .ok d' ∧ keysOf d' = keysOf d := by
  refine ⟨d.map fun kv => (kv.1, kv.2 / sumValues d), ?_, ?_⟩
  · unfold normalizeProbs
    rw [if_neg hz]
  · unfold keysOf
    rw [List.map_map]
    rfl

lemma normalizeProbs_error {d : Dict} (hz : sumValues d = 0) :
    normalizeProbs d = .error .zeroDivisionError := by
  unfold normalizeProbs
  rw [if_pos hz]

lemma normalizeProbs_keys {d d' : Dict} (h : normalizeProbs d = .ok d') :
    keysOf d' = keysOf d := by
  unfold normalizeProbs at h
  by_cases hz : sumValues d = 0
  · rw [if_pos hz] at h
    exact absurd h (by simp)
  · rw [if_neg hz] at h
    simp only [Except.ok.injEq] at h
    rw [← h]
    unfold keysOf
    rw [List.map_map]
    rfl

lemma updateState_valid {st : DRState} {rt : Str} (hst : validState st)
    (hrt : rt ∈ allTypeStrings) : validState (updateState st rt) := by
  unfold updateState
  split_ifs with h
  · exact hst
  · exact Or.inr ⟨rt, hrt, rfl⟩

/-- Shape of `get_response_type` in enabled mode. -/
lemma get_response_type_enabled {cfg : Config} (st : DRState) (msg : Str)
    (ctx : Option Ctx) (u : Nat → ℚ) (i : Nat) (hen : cfg.enabled = true) :
    get_response_type cfg st msg ctx u i =
      match adjustForVariety st u i
          (contextStage (adjustForContent (mkProbs cfg) msg) ctx) with
      | .error e => .error e
      | .ok s3 =>
        match normalizeProbs (applyRandomness cfg.randomness u s3.1 s3.2).1 with
        | .error e => .error e
        | .ok d5 =>
          let rt := selectResponseType d5
            (u (applyRandomness cfg.randomness u s3.1 s3.2).2)
          .ok (rt, updateState st rt,
            (applyRandomness cfg.randomness u s3.1 s3.2).2 + 1) := by
  unfold get_response_type
  rw [if_neg (by simp [hen])]

lemma normalizeProbs_error_inv {d : Dict} {e : PyError}
    (h : normalizeProbs d = .error e) : e = .zeroDivisionError := by
  unfold normalizeProbs at h
  by_cases hz : sumValues d = 0
  · rw [if_pos hz] at h
    simpa using h.symm
  · rw [if_neg hz] at h
    exact absurd h (by simp)

lemma mem_str_medium : str_medium ∈ allTypeStrings := by decide

/-- Dispatch: enabled call, variety stage succeeded. -/
lemma get_response_type_enabled_ok {cfg : Config} {st : DRState} {msg : Str}
    {ctx : Option Ctx} {u : Nat → ℚ} {i : Nat} {d3 : Dict} {i3 : Nat}
    (hen : cfg.enabled = true)
    (h3 : adjustForVariety st u i
      (contextStage (adjustForContent (mkProbs cfg) msg) ctx) = .ok (d3, i3)) :
    get_response_type cfg st msg ctx u i =
      match normalizeProbs (applyRandomness cfg.randomness u d3 i3).1 with
      | .error e => .error e
      | .ok d5 =>
        .ok (selectResponseType d5 (u (applyRandomness cfg.randomness u d3 i3).2),
          updateState st
            (selectResponseType d5 (u (applyRandomness cfg.randomness u d3 i3).2)),
          (applyRandomness cfg.randomness u d3 i3).2 + 1) := by
  rw [get_response_type_enabled st msg ctx u i hen, h3]

/-- Dispatch: enabled call, variety stage raised. -/
lemma get_response_type_variety_err {cfg : Config} {st : DRState} {msg : Str}
    {ctx : Option Ctx} {u : Nat → ℚ} {i : Nat} {e : PyError}
    (hen : cfg.enabled = true)
    (h3 : adjustForVariety st u i
      (contextStage (adjustForContent (mkProbs cfg) msg) ctx) = .error e) :
    get_response_type cfg st msg ctx u i = .error e := by
  rw [get_response_type_enabled st msg ctx u i hen, h3]

/-- Dispatch: enabled call, variety succeeded, normalization raised. -/
lemma get_response_type_norm_err {cfg : Config} {st : DRState} {msg : Str}
    {ctx : Option Ctx} {u : Nat → ℚ} {i : Nat} {d3 : Dict} {i3 : Nat} {e : PyError}
    (hen : cfg.enabled = true)
    (h3 : adjustForVariety st u i
      (contextStage (adjustForContent (mkProbs cfg) msg) ctx) = .ok (d3, i3))
    (h5 : normalizeProbs (applyRandomness cfg.randomness u d3 i3).1 = .error e) :
    get_response_type cfg st msg ctx u i = .error e := by
  rw [get_response_type_enabled_ok hen h3, h5]

/-- Dispatch: enabled call, both fallible stages succeeded. -/
lemma get_response_type_ok_ok {cfg : Config} {st : DRState} {msg : Str}
    {ctx : Option Ctx} {u : Nat → ℚ} {i : Nat} {d3 : Dict} {i3 : Nat} {d5 : Dict}
    (hen : cfg.enabled = true)
    (h3 : adjustForVariety st u i
      (contextStage (adjustForContent (mkProbs cfg) msg) ctx) = .ok (d3, i3))
    (h5 : normalizeProbs (applyRandomness cfg.randomness u d3 i3).1 = .ok d5) :
    get_response_type cfg st msg ctx u i =
      .ok (selectResponseType d5 (u (applyRandomness cfg.randomness u d3 i3).2),
        updateState st
          (selectResponseType d5 (u (applyRandomness cfg.randomness u d3 i3).2)),
        (applyRandomness cfg.randomness u d3 i3).2 + 1) := by
  rw [get_response_type_enabled_ok hen h3, h5]

/-- Dispatch: disabled call. -/
lemma get_response_type_disabled {cfg : Config} (st : DRState) (msg : Str)
    (ctx : Option Ctx) (u : Nat → ℚ) (i : Nat) (hen : cfg.enabled = false) :
    get_response_type cfg st msg ctx u i = .ok (str_medium, st, i) := by
  unfold get_response_type
  rw [if_pos hen]

/-- Safety of one selector call from a valid state: the only Python error
it can raise is the ZeroDivisionError of normalization (never KeyError,
ValueError or IndexError), the returned class string is one of the five
keys, and the updated state is again valid. -/
lemma get_response_type_safe {cfg : Config} {st : DRState} (msg : Str)
    (ctx : Option Ctx) (u : Nat → ℚ) (i : Nat) (hst : validState st) :
    (∀ e, get_response_type cfg st msg ctx u i = .error e →
      e = .zeroDivisionError) ∧
    (∀ rt st2 i2, get_response_type cfg st msg ctx u i = .ok (rt, st2, i2) →
      rt ∈ allTypeStrings ∧ validState st2) := by
  by_cases hen : cfg.enabled = true
  · have hkeys2 : keysOf (contextStage (adjustForContent (mkProbs cfg) msg) ctx) =
        allTypeStrings := by
      rw [contextStage_keys, adjustForContent_keys, mkProbs_keys]
    obtain ⟨d3, i3, heq3, hk3, hn3, hp3⟩ := adjustForVariety_ok u i hst hkeys2
    cases hnp : normalizeProbs (applyRandomness cfg.randomness u d3 i3).1 with
    | error e2 =>
      have hfull := get_response_type_norm_err hen heq3 hnp
      refine ⟨fun e he => ?_, fun rt st2 i2 hok => ?_⟩
      · rw [hfull] at he
        simp only [Except.error.injEq] at he
        rw [← he]
        exact normalizeProbs_error_inv hnp
      · rw [hfull] at hok
        simp at hok
    | ok d5 =>
      have hfull := get_response_type_ok_ok hen heq3 hnp
      have hk5 : keysOf d5 = allTypeStrings := by
        rw [normalizeProbs_keys hnp, applyRandomness_keys, hk3]
      refine ⟨fun e he => ?_, fun rt st2 i2 hok => ?_⟩
      · rw [hfull] at he
        simp at he
      · rw [hfull] at hok
        simp only [Except.ok.injEq, Prod.mk.injEq] at hok
        obtain ⟨hrt, hst2, _⟩ := hok
        subst hrt
        subst hst2
        exact ⟨selectResponseType_mem hk5 _,
          updateState_valid hst (selectResponseType_mem hk5 _)⟩
  · have hf : cfg.enabled = false := by
      cases h : cfg.enabled
      · rfl
      · exact absurd h hen
    have hfull := get_response_type_disabled st msg ctx u i hf
    refine ⟨fun e he => ?_, fun rt st2 i2 h => ?_⟩
    · rw [hfull] at he
      simp at he
    · rw [hfull] at h
      simp only [Except.ok.injEq, Prod.mk.injEq] at h
      obtain ⟨hrt, hst2, _⟩ := h
      subst hrt
      subst hst2
      exact ⟨mem_str_medium, hst⟩

/-- Totality of one enabled selector call: with non-negative base weights at
least one of which is positive, randomness factor in [0,1) and draws ≥ 0,
the call returns a class rather than raising. -/
lemma get_response_type_total {cfg : Config} {st : DRState} (msg : Str)
    (ctx : Option Ctx) (u : Nat → ℚ) (i : Nat) (hst : validState st)
    (hen : cfg.enabled = true)
    (hnn : nonnegDict (mkProbs cfg)) (hpp : hasPosDict (mkProbs cfg))
    (hr0 : 0 ≤ cfg.randomness) (hr1 : cfg.randomness < 1)
    (hu : ∀ n, 0 ≤ u n) :
    ∃ rt st2 i2, get_response_type cfg st msg ctx u i = .ok (rt, st2, i2) ∧
      rt ∈ allTypeStrings := by
  have hkeys2 : keysOf (contextStage (adjustForContent (mkProbs cfg) msg) ctx) =
      allTypeStrings := by
    rw [contextStage_keys, adjustForContent_keys, mkProbs_keys]
  obtain ⟨d3, i3, heq3, hk3, hn3, hp3⟩ := adjustForVariety_ok u i hst hkeys2
  have hn2 : nonnegDict (contextStage (adjustForContent (mkProbs cfg) msg) ctx) :=
    contextStage_nonneg ctx (adjustForContent_nonneg msg hnn)
  have hp2 : hasPosDict (contextStage (adjustForContent (mkProbs cfg) msg) ctx) :=
    contextStage_hasPos ctx (adjustForContent_hasPos msg hpp)
  have hn4 : nonnegDict (applyRandomness cfg.randomness u d3 i3).1 :=
    applyRandomness_nonneg i3 hr0 (le_of_lt hr1) hu (hn3 hn2)
  have hp4 : hasPosDict (applyRandomness cfg.randomness u d3 i3).1 :=
    applyRandomness_hasPos i3 hr0 hr1 hu (hp3 hn2 hp2)
  have hz : sumValues (applyRandomness cfg.randomness u d3 i3).1 ≠ 0 :=
    ne_of_gt (sumValues_pos hn4 hp4)
  obtain ⟨d5, h5, hk5⟩ := normalizeProbs_ok hz
  have hk5' : keysOf d5 = allTypeStrings := by
    rw [hk5, applyRandomness_keys, hk3]
  exact ⟨selectResponseType d5 (u (applyRandomness cfg.randomness u d3 i3).2),
    updateState st
      (selectResponseType d5 (u (applyRandomness cfg.randomness u d3 i3).2)),
    (applyRandomness cfg.randomness u d3 i3).2 + 1,
    get_response_type_ok_ok hen heq3 h5, selectResponseType_mem hk5' _⟩

/-- All weights exactly zero (the degenerate configuration). -/
def allZeroDict (d : Dict) : Prop := ∀ kv ∈ d, kv.2 = 0

lemma allZero_dmul (k : Str) (c : ℚ) {d : Dict} (hd : allZeroDict d) :
    allZeroDict (dmul k c d) := by
  intro kv hkv
  obtain ⟨kv0, hkv0, rfl⟩ := List.mem_map.mp hkv
  by_cases h : kv0.1 = k <;> simp [h]
  · left
    exact hd kv0 hkv0
  · exact hd kv0 hkv0

lemma allZero_adjustForContent (msg : Str) {d : Dict} (hd : allZeroDict d) :
    allZeroDict (adjustForContent d msg) := by
  simp only [adjustForContent]
  split_ifs <;>
    repeat' first
      | exact hd
      | apply allZero_dmul

lemma allZero_contextStage (ctx : Option Ctx) {d : Dict} (hd : allZeroDict d) :
    allZeroDict (contextStage d ctx) := by
  cases ctx with
  | none => exact hd
  | some c =>
    show allZeroDict (adjustForContext d c)
    simp only [adjustForContext]
    split_ifs <;>
      repeat' first
        | exact hd
        | apply allZero_dmul

lemma allZero_applyRandomness (r : ℚ) (u : Nat → ℚ) {d : Dict} (i : Nat)
    (hd : allZeroDict d) : allZeroDict (applyRandomness r u d i).1 := by
  induction d generalizing i with
  | nil => intro kv hkv; simp [applyRandomness] at hkv
  | cons kv rest ih =>
    intro kv2 hkv2
    simp only [applyRandomness, List.mem_cons] at hkv2
    rcases hkv2 with rfl | hkv2
    · simp [hd kv (List.mem_cons_self kv rest)]
    · exact ih (i + 1) (fun kv3 hkv3 => hd kv3 (List.mem_cons_of_mem kv hkv3)) kv2 hkv2

lemma sumValues_allZero {d : Dict} (hd : allZeroDict d) : sumValues d = 0 := by
  unfold sumValues
  apply List.sum_eq_zero
  intro x hx
  obtain ⟨kv, hkv, rfl⟩ := List.mem_map.mp hx
  exact hd kv hkv

lemma varietyRandomBoost_nonneg_of_ok {last : Str} {u : Nat → ℚ} {i2 : Nat}
    {d2 d' : Dict} {i' : Nat}
    (h : varietyRandomBoost last u i2 d2 = .ok (d', i')) (hd : nonnegDict d2) :
    nonnegDict d' := by
  unfold varietyRandomBoost at h
  by_cases h1 : u i2 < 1/5
  · rw [if_pos h1] at h
    by_cases h2 : last ∈ d2.map Prod.fst
    · rw [if_pos h2] at h
      by_cases h3 : (pyRemove last (d2.map Prod.fst)).isEmpty = true
      · rw [if_pos h3] at h
        simp at h
      · rw [if_neg h3] at h
        split at h
        · simp at h
        · simp only [Except.ok.injEq, Prod.mk.injEq] at h
          obtain ⟨hd', _⟩ := h
          rw [← hd']
          exact dmul_nonneg (by norm_num) hd
    · rw [if_neg h2] at h
      simp at h
  · rw [if_neg h1] at h
    simp only [Except.ok.injEq, Prod.mk.injEq] at h
    obtain ⟨hd', _⟩ := h
    rw [← hd']
    exact hd

lemma varietyCore_nonneg_of_ok {last : Str} {n : Nat} {u : Nat → ℚ} {i : Nat}
    {d d' : Dict} {i' : Nat}
    (h : varietyCore last n u i d = .ok (d', i')) (hd : nonnegDict d) :
    nonnegDict d' := by
  unfold varietyCore at h
  split at h
  · simp at h
  · exact varietyRandomBoost_nonneg_of_ok h (varietyDamped_nonneg last n u i hd)

lemma adjustForVariety_nonneg_of_ok {st : DRState} {u : Nat → ℚ} {i : Nat}
    {d d' : Dict} {i' : Nat}
    (h : adjustForVariety st u i d = .ok (d', i')) (hd : nonnegDict d) :
    nonnegDict d' := by
  unfold adjustForVariety at h
  split_ifs at h
  · split at h
    · exact varietyCore_nonneg_of_ok h hd
    · simp only [Except.ok.injEq, Prod.mk.injEq] at h
      obtain ⟨hd', _⟩ := h
      rw [← hd']
      exact hd
  · simp only [Except.ok.injEq, Prod.mk.injEq] at h
    obtain ⟨hd', _⟩ := h
    rw [← hd']
    exact hd

/-- Iterated tracking-variable update over the classes selected on
successive enabled turns (`get_response_type` ends every enabled call with
exactly one `updateState` application on the selected class). -/
def runSelections (st : DRState) (cs : List Str) : DRState := cs.foldl updateState st

/-- Every successful enabled call updates the stored state with exactly
`updateState` applied to the returned class. -/
lemma get_response_type_state_update {cfg : Config} {st : DRState} {msg : Str}
    {ctx : Option Ctx} {u : Nat → ℚ} {i : Nat} {rt : Str} {st2 : DRState} {i2 : Nat}
    (hen : cfg.enabled = true)
    (h : get_response_type cfg st msg ctx u i = .ok (rt, st2, i2)) :
    st2 = updateState st rt := by
  cases hv : adjustForVariety st u i
      (contextStage (adjustForContent (mkProbs cfg) msg) ctx) with
  | error e =>
    rw [get_response_type_variety_err hen hv] at h
    simp at h
  | ok s3 =>
    obtain ⟨d3, i3⟩ := s3
    cases hnp : normalizeProbs (applyRandomness cfg.randomness u d3 i3).1 with
    | error e =>
      rw [get_response_type_norm_err hen hv hnp] at h
      simp at h
    | ok d5 =>
      rw [get_response_type_ok_ok hen hv hnp] at h
      simp only [Except.ok.injEq, Prod.mk.injEq] at h
      obtain ⟨hrt, hst2, _⟩ := h
      rw [← hst2, hrt]

lemma runSelections_same (c : Str) :
    ∀ (k n : Nat), runSelections ⟨some c, n⟩ (List.replicate k c) = ⟨some c, n + k⟩ := by
  intro k
  induction k with
  | zero => intro n; simp [runSelections]
  | succ m ih =>
    intro n
    have hstep : updateState ⟨some c, n⟩ c = ⟨some c, n + 1⟩ := by
      unfold updateState
      rw [if_pos rfl]
    show runSelections (updateState ⟨some c, n⟩ c) (List.replicate m c) = _
    rw [hstep, ih (n + 1)]
    congr 1
    omega

/-! ## Claims -/

/-- Claim C1 (code bug): the spec guarantees every chunk returned by
`split_long_message` is non-empty, with an oversized word becoming its own
chunk *rather than* an empty chunk being emitted.  The code violates this:
the word-level overflow append lacks the emptiness guard present at the
paragraph and sentence levels, so on the input "AAAAAA" with limit 5 the
returned list starts with an empty chunk. -/
theorem claim_C1_empty_chunk_emitted :
    split_long_message "AAAAAA".data 5 = [[], "AAAAAA".data] ∧
    [] ∈ split_long_message "AAAAAA".data 5 := by
  refine ⟨by decide, ?_⟩
  decide

/-- Claim C2 (code bug): the spec's Scenario C says
`split_long_message("A"*5000, 4000)` returns exactly one 5000-character
chunk since there is no space to split on; the code instead returns two
chunks, an empty string followed by the untouched 5000-character word. -/
theorem claim_C2_scenario_c :
    split_long_message (List.replicate 5000 'A') 4000 =
      [[], List.replicate 5000 'A'] := by
  apply split_single_word
  · intro hmem
    rw [List.mem_replicate] at hmem
    exact absurd hmem.2 (by decide)
  · intro hmem
    rw [List.mem_replicate] at hmem
    exact absurd hmem.2 (by decide)
  · rw [List.length_replicate]
    norm_num

/-- Claim C3 counterexample: the claim says the damping factor
`min(0.3, 0.8^n)` never falls below 0.3; at `n = 6` it equals
`0.8^6 = 0.262144 < 0.3`. -/
theorem claim_C3_cx : reduction_factor 6 < 3/10 := by
  unfold reduction_factor
  apply min_lt_iff.mpr
  right
  norm_num

/-- Claim C3 (amended): for consecutive counts `n ≥ 1` the damping factor
`reduction_factor n = min(0.3, 0.8^n)` is non-increasing in `n` and is
upper-bounded by 0.3 (it caps the factor at 0.3 rather than flooring it;
for large `n` it tends to 0). -/
theorem claim_C3_amended (n : Nat) (hn : 1 ≤ n) :
    reduction_factor (n + 1) ≤ reduction_factor n ∧ reduction_factor n ≤ 3/10 :=
  ⟨min_le_min le_rfl
      (pow_le_pow_of_le_one (by norm_num) (by norm_num) (Nat.le_succ n)),
    min_le_left _ _⟩

/-- Claim C3 witness at `n = 3`. -/
theorem claim_C3_amended_witness :
    1 ≤ 3 ∧ (reduction_factor 4 ≤ reduction_factor 3 ∧ reduction_factor 3 ≤ 3/10) :=
  ⟨by norm_num, claim_C3_amended 3 (by norm_num)⟩

/-- Claim C4 counterexample: with the all-zero (hence non-negative) base
weight configuration, the enabled selector does *not* return a class: the
weighted total is zero and normalization raises ZeroDivisionError. -/
theorem claim_C4_cx :
    get_response_type ⟨true, 0, 0, 0, 0, 0, 9/10⟩ initialState "hi".data none
      (fun _ => 1/2) 0 = .error .zeroDivisionError := by
  have hz0 : allZeroDict (mkProbs ⟨true, 0, 0, 0, 0, 0, 9/10⟩) := by
    intro kv hkv
    simp only [mkProbs, List.mem_cons, List.not_mem_nil, or_false] at hkv
    rcases hkv with rfl | rfl | rfl | rfl | rfl <;> rfl
  have hz2 : allZeroDict (contextStage
      (adjustForContent (mkProbs ⟨true, 0, 0, 0, 0, 0, 9/10⟩) "hi".data) none) :=
    allZero_contextStage none (allZero_adjustForContent _ hz0)
  have hvar : adjustForVariety initialState (fun _ => 1/2) 0
      (contextStage
        (adjustForContent (mkProbs ⟨true, 0, 0, 0, 0, 0, 9/10⟩) "hi".data) none) =
      .ok (contextStage
        (adjustForContent (mkProbs ⟨true, 0, 0, 0, 0, 0, 9/10⟩) "hi".data) none, 0) := by
    unfold adjustForVariety
    rw [if_neg (by simp [initialState])]
  apply get_response_type_norm_err rfl hvar
  apply normalizeProbs_error
  exact sumValues_allZero (allZero_applyRandomness _ _ _ hz2)

/-- Claim C4 (amended): from any valid selector state, with non-negative
base weights at least one of which is positive, randomness factor in
[0,1) and uniform draws ≥ 0, the enabled selector returns one of the five
class strings (sampling by cumulative distribution with fallback to
"medium"); it never raises. -/
theorem claim_C4_amended (cfg : Config) (st : DRState) (msg : Str)
    (ctx : Option Ctx) (u : Nat → ℚ) (i : Nat)
    (hen : cfg.enabled = true) (hst : validState st)
    (h1 : 0 ≤ cfg.extremely_short_probability)
    (h2 : 0 ≤ cfg.slightly_short_probability)
    (h3 : 0 ≤ cfg.medium_probability)
    (h4 : 0 ≤ cfg.slightly_long_probability)
    (h5 : 0 ≤ cfg.long_probability)
    (hpos : 0 < cfg.extremely_short_probability ∨
      0 < cfg.slightly_short_probability ∨ 0 < cfg.medium_probability ∨
      0 < cfg.slightly_long_probability ∨ 0 < cfg.long_probability)
    (hr0 : 0 ≤ cfg.randomness) (hr1 : cfg.randomness < 1)
    (hu : ∀ n, 0 ≤ u n) :
    ∃ rt st2 i2, get_response_type cfg st msg ctx u i = .ok (rt, st2, i2) ∧
      rt ∈ allTypeStrings := by
  apply get_response_type_total msg ctx u i hst hen ?_ ?_ hr0 hr1 hu
  · intro kv hkv
    simp only [mkProbs, List.mem_cons, List.not_mem_nil, or_false] at hkv
    rcases hkv with rfl | rfl | rfl | rfl | rfl <;> assumption
  · rcases hpos with h | h | h | h | h
    · exact ⟨(str_extremely_short, cfg.extremely_short_probability),
        by simp [mkProbs], h⟩
    · exact ⟨(str_slightly_short, cfg.slightly_short_probability),
        by simp [mkProbs], h⟩
    · exact ⟨(str_medium, cfg.medium_probability), by simp [mkProbs], h⟩
    · exact ⟨(str_slightly_long, cfg.slightly_long_probability),
        by simp [mkProbs], h⟩
    · exact ⟨(str_long, cfg.long_probability), by simp [mkProbs], h⟩

/-- Claim C4 witness: the default configuration of config.py. -/
theorem claim_C4_amended_witness :
    ∃ rt st2 i2,
      get_response_type ⟨true, 3/20, 1/5, 1/4, 1/5, 1/5, 9/10⟩ initialState
        "hi".data none (fun _ => 1/2) 0 = .ok (rt, st2, i2) ∧
      rt ∈ allTypeStrings :=
  claim_C4_amended _ _ _ _ _ _ rfl (Or.inl rfl)
    (by show (0:ℚ) ≤ 3/20; norm_num) (by show (0:ℚ) ≤ 1/5; norm_num)
    (by show (0:ℚ) ≤ 1/4; norm_num) (by show (0:ℚ) ≤ 1/5; norm_num)
    (by show (0:ℚ) ≤ 1/5; norm_num)
    (Or.inl (by show (0:ℚ) < 3/20; norm_num))
    (by show (0:ℚ) ≤ 9/10; norm_num) (by show (9:ℚ)/10 < 1; norm_num)
    (fun n => by norm_num)

/-- Claim C5: every chunk returned by the Segmenter has length at most
`maxLen`, except a chunk consisting of a single space-free word that is
itself longer than `maxLen`: any oversized chunk contains no space. -/
theorem claim_C5_size_bound (text : Str) (maxLen : Nat) (hpos : 0 < maxLen) :
    ∀ ch ∈ split_long_message text maxLen, maxLen < ch.length → ' ' ∉ ch := by
  intro ch hch hlen
  rcases split_long_message_chunkOK text maxLen ch hch with h | h
  · omega
  · exact h

/-- Claim C5 witness: chunking "aaa bb" at limit 2 (the 3-letter word is
an atomic oversized chunk). -/
theorem claim_C5_size_bound_witness :
    0 < 2 ∧ ∀ ch ∈ split_long_message "aaa bb".data 2, 2 < ch.length → ' ' ∉ ch :=
  ⟨by norm_num, claim_C5_size_bound "aaa bb".data 2 (by norm_num)⟩

/-- Claim C6: concatenating the returned chunks in order preserves the
ordered sequence of non-whitespace characters of the input: only the
space/newline separator characters are dropped or reinserted, so no word,
sentence or paragraph content is lost or reordered. -/
theorem claim_C6_totality (text : Str) (maxLen : Nat) (hpos : 0 < maxLen) :
    content (split_long_message text maxLen).flatten = content text :=
  split_long_message_content text maxLen

/-- Claim C6 witness: a text with paragraph, sentence and word splits. -/
theorem claim_C6_totality_witness :
    0 < 3 ∧ content (split_long_message "a. b\n\ncc dd".data 3).flatten =
      content "a. b\n\ncc dd".data :=
  ⟨by norm_num, claim_C6_totality "a. b\n\ncc dd".data 3 (by norm_num)⟩

/-- Claim C7 counterexample: no adjustment stage clamps a zero weight to a
positive floor, so with all-zero (non-negative) base weights the
normalization step divides by zero and the selector raises. -/
theorem claim_C7_cx :
    get_response_type ⟨true, 0, 0, 0, 0, 0, 1/2⟩ initialState [] none
      (fun _ => 0) 0 = .error .zeroDivisionError := by
  have hz0 : allZeroDict (mkProbs ⟨true, 0, 0, 0, 0, 0, 1/2⟩) := by
    intro kv hkv
    simp only [mkProbs, List.mem_cons, List.not_mem_nil, or_false] at hkv
    rcases hkv with rfl | rfl | rfl | rfl | rfl <;> rfl
  have hz2 : allZeroDict (contextStage
      (adjustForContent (mkProbs ⟨true, 0, 0, 0, 0, 0, 1/2⟩) []) none) :=
    allZero_contextStage none (allZero_adjustForContent _ hz0)
  have hvar : adjustForVariety initialState (fun _ => 0) 0
      (contextStage (adjustForContent (mkProbs ⟨true, 0, 0, 0, 0, 0, 1/2⟩) []) none) =
      .ok (contextStage
        (adjustForContent (mkProbs ⟨true, 0, 0, 0, 0, 0, 1/2⟩) []) none, 0) := by
    unfold adjustForVariety
    rw [if_neg (by simp [initialState])]
  apply get_response_type_norm_err rfl hvar
  apply normalizeProbs_error
  exact sumValues_allZero (allZero_applyRandomness _ _ _ hz2)

/-- Claim C7 (amended): starting from non-negative weights, each of the
four adjustment stages (content, context, anti-repetition, randomness
injection with factor in [0,1] and draws ≥ 0) keeps every weight
non-negative; but no stage applies a positive floor, and with a zero total
the normalization raises (see the counterexample). -/
theorem claim_C7_amended (d : Dict) (msg : Str) (c : Ctx) (st : DRState)
    (u : Nat → ℚ) (i : Nat) (r : ℚ)
    (hd : ∀ kv ∈ d, 0 ≤ kv.2) (hr0 : 0 ≤ r) (hr1 : r ≤ 1) (hu : ∀ n, 0 ≤ u n) :
    (∀ kv ∈ adjustForContent d msg, 0 ≤ kv.2) ∧
    (∀ kv ∈ adjustForContext d c, 0 ≤ kv.2) ∧
    (∀ d2 i2, adjustForVariety st u i d = .ok (d2, i2) → ∀ kv ∈ d2, 0 ≤ kv.2) ∧
    (∀ kv ∈ (applyRandomness r u d i).1, 0 ≤ kv.2) :=
  ⟨adjustForContent_nonneg msg hd, adjustForContext_nonneg c hd,
    fun _ _ h => adjustForVariety_nonneg_of_ok h hd,
    applyRandomness_nonneg i hr0 hr1 hu hd⟩

/-- Claim C7 witness at a concrete dictionary, state and draws. -/
theorem claim_C7_amended_witness :
    (∀ kv ∈ adjustForContent [(str_medium, (1:ℚ))] "hi".data, 0 ≤ kv.2) ∧
    (∀ kv ∈ adjustForContext [(str_medium, (1:ℚ))] ⟨true, 3⟩, 0 ≤ kv.2) ∧
    (∀ d2 i2, adjustForVariety ⟨some str_medium, 1⟩ (fun _ => 1/2) 0
      [(str_medium, (1:ℚ))] = .ok (d2, i2) → ∀ kv ∈ d2, 0 ≤ kv.2) ∧
    (∀ kv ∈ (applyRandomness (1/2) (fun _ => 1/2) [(str_medium, (1:ℚ))] 0).1,
      0 ≤ kv.2) :=
  claim_C7_amended [(str_medium, (1:ℚ))] "hi".data ⟨true, 3⟩
    ⟨some str_medium, 1⟩ (fun _ => 1/2) 0 (1/2)
    (by intro kv hkv; simp only [List.mem_cons, List.not_mem_nil, or_false] at hkv;
        rw [hkv]; norm_num)
    (by norm_num) (by norm_num) (fun n => by norm_num)

/-- Claim C8: when the dynamic-message-length switch is disabled, every
call returns the class "medium", leaves the state untouched and consumes
no random draws (the cursor is returned unchanged), hence repeated calls
are deterministic. -/
theorem claim_C8_disabled (cfg : Config) (st : DRState) (msg : Str)
    (ctx : Option Ctx) (u : Nat → ℚ) (i : Nat) (hen : cfg.enabled = false) :
    get_response_type cfg st msg ctx u i = .ok (str_medium, st, i) :=
  get_response_type_disabled st msg ctx u i hen

/-- Claim C8 witness at a concrete disabled configuration and state. -/
theorem claim_C8_disabled_witness :
    get_response_type ⟨false, 3/20, 1/5, 1/4, 1/5, 1/5, 9/10⟩
      ⟨some str_long, 2⟩ "hi".data none (fun _ => 1/2) 7 =
      .ok (str_medium, ⟨some str_long, 2⟩, 7) :=
  claim_C8_disabled _ _ _ _ _ _ rfl

/-- Claim C9 counterexample: after one turn that selects "medium" from a
fresh conversation, the stored consecutive count is 0, not 1 as the claim
(count = number of consecutive turns) requires. -/
theorem claim_C9_cx :
    runSelections initialState [str_medium] = ⟨some str_medium, 0⟩ ∧
    (runSelections initialState [str_medium]).consecutive_same_type_count ≠ 1 := by
  refine ⟨by decide, by decide⟩

/-- Claim C9 (amended): after exactly `k ≥ 1` consecutive turns that all
select class `c` (the previous state remembering a different class or
none), the state stores `lastClass = c` and `consecutiveCount = k - 1`:
the counter counts the repeats beyond the first selection, and it is reset
to 0 by the turn that switches class. -/
theorem claim_C9_amended (st : DRState) (c : Str) (k : Nat) (hk : 1 ≤ k)
    (hne : st.last_response_type ≠ some c) :
    runSelections st (List.replicate k c) = ⟨some c, k - 1⟩ := by
  obtain ⟨m, rfl⟩ : ∃ m, k = m + 1 := ⟨k - 1, by omega⟩
  rw [List.replicate_succ]
  show runSelections (updateState st c) (List.replicate m c) = _
  have h1 : updateState st c = ⟨some c, 0⟩ := by
    unfold updateState
    rw [if_neg hne]
  rw [h1, runSelections_same]
  simp

/-- Claim C9 witness: three consecutive "medium" turns from a fresh state
leave the counter at 2. -/
theorem claim_C9_amended_witness :
    1 ≤ 3 ∧ runSelections initialState (List.replicate 3 str_medium) =
      ⟨some str_medium, 2⟩ :=
  ⟨by norm_num,
    claim_C9_amended initialState str_medium 3 (by norm_num) (by simp [initialState])⟩

/-- Claim C10: the selector state invariant (the remembered class is None
or one of the five key strings, and the count is a natural number) holds
of the initial state and is preserved by every call; consequently the
anti-repetition stage's dictionary lookup and list removal cannot fail:
the only error any call can raise is the ZeroDivisionError of
normalization, never KeyError or ValueError. -/
theorem claim_C10_invariant (cfg : Config) (st : DRState) (msg : Str)
    (ctx : Option Ctx) (u : Nat → ℚ) (i : Nat) (hst : validState st) :
    validState initialState ∧
    (∀ e, get_response_type cfg st msg ctx u i = .error e →
      e = .zeroDivisionError) ∧
    (∀ rt st2 i2, get_response_type cfg st msg ctx u i = .ok (rt, st2, i2) →
      rt ∈ allTypeStrings ∧ validState st2) :=
  ⟨Or.inl rfl, (get_response_type_safe msg ctx u i hst).1,
    (get_response_type_safe msg ctx u i hst).2⟩

/-- Claim C10 witness at a concrete valid state with a stored class and a
positive repeat count (so the anti-repetition stage actually runs). -/
theorem claim_C10_invariant_witness :
    validState initialState ∧
    (∀ e, get_response_type ⟨true, 3/20, 1/5, 1/4, 1/5, 1/5, 9/10⟩
      ⟨some str_long, 3⟩ "hi".data none (fun _ => 1/2) 0 = .error e →
      e = .zeroDivisionError) ∧
    (∀ rt st2 i2, get_response_type ⟨true, 3/20, 1/5, 1/4, 1/5, 1/5, 9/10⟩
      ⟨some str_long, 3⟩ "hi".data none (fun _ => 1/2) 0 = .ok (rt, st2, i2) →
      rt ∈ allTypeStrings ∧ validState st2) :=
  claim_C10_invariant _ _ _ _ _ _ (Or.inr ⟨str_long, by decide, rfl⟩)
